import Mathlib

set_option linter.unusedVariables false

/-!
Verification of the slipstream DNS-tunnel repository.

This file shallowly embeds the parts of the source that the checked
properties are about:

* `crates/slipstream-dns/src/fragment.rs` — application-layer
  fragmentation of QUIC packets (`fragment_packet`, `parse_fragment`,
  `is_fragmented`, `FragmentBuffer::receive_fragment`);
* `crates/slipstream-client/src/dns/resolver.rs` — resolver resolution,
  duplicate detection and dual-stack address normalization;
* `crates/slipstream-client/src/main.rs` — ordered CLI resolver
  collection (`build_resolvers`) and `slipstream-core`'s
  `parse_host_port`;
* `crates/slipstream-client/src/runtime/mod.rs` — `compute_mtu` and the
  poll-budget arithmetic of the client event loop;
* `crates/slipstream-server/src/server.rs` — the per-slot DNS response
  selection of `run_server`.

Byte strings are `List Nat` with each element a byte value; machine
integers are `Nat` with explicit `% 2^w` where the source truncates.
-/

namespace Slipstream

/-- A byte string (`&[u8]` / `Vec<u8>`); each element is a byte value. -/
abbrev Bytes := List Nat

/-! ## fragment.rs -/

/-- Magic byte identifying fragment packets (`FRAGMENT_MAGIC`, ASCII 'S'). -/
def FRAGMENT_MAGIC : Nat := 0x53

/-- Header size for fragment metadata:
magic (1) + packet_id (2) + frag_num (1) + total (1). -/
def FRAGMENT_HEADER_SIZE : Nat := 5

/-- Rust `slice::chunks`: contiguous chunks of `k` elements, the last chunk
possibly shorter.  `chunks` panics on `k = 0`; the source only calls it with
`k > 0`, and the model returns `[]` in that unreachable case. -/
def chunksOf (k : Nat) (l : Bytes) : List Bytes :=
  if h : k = 0 ∨ l = [] then [] else l.take k :: chunksOf k (l.drop k)
termination_by l.length
decreasing_by
  rcases not_or.mp h with ⟨hk, hl⟩
  simp only [List.length_drop]
  exact Nat.sub_lt (List.length_pos.mpr hl) (Nat.pos_of_ne_zero hk)

/-- `u16::to_be_bytes` of a packet id held in a `u16`. -/
def packetIdBytes (packet_id : Nat) : List Nat :=
  [(packet_id / 256) % 256, packet_id % 256]

/-- `fragment_packet` from fragment.rs: split a QUIC packet into headed
fragments.  `frag_num` is the `usize → u8` cast (`i as u8`), written `% 256`;
`total` is `chunks.len().min(255) as u8`. -/
def fragment_packet (packet : Bytes) (packet_id : Nat) (max_payload : Nat) :
    List Bytes :=
  if max_payload ≤ FRAGMENT_HEADER_SIZE then []
  else
    let chunk_size := max_payload - FRAGMENT_HEADER_SIZE
    if chunk_size = 0 then []
    else if packet.length ≤ chunk_size then
      [FRAGMENT_MAGIC :: packetIdBytes packet_id ++ 0 :: 1 :: packet]
    else
      let chunks := chunksOf chunk_size packet
      let total := min chunks.length 255
      (chunks.enum.take 255).map (fun ic =>
        FRAGMENT_MAGIC :: packetIdBytes packet_id ++ ic.1 % 256 :: total :: ic.2)

/-- `parse_fragment` from fragment.rs: returns
`(packet_id, frag_num, total, payload)`, or `none` when the data is shorter
than the header or the magic byte is absent. -/
def parse_fragment (data : Bytes) : Option (Nat × Nat × Nat × Bytes) :=
  if data.length < FRAGMENT_HEADER_SIZE then none
  else if data.getD 0 0 ≠ FRAGMENT_MAGIC then none
  else some (256 * data.getD 1 0 + data.getD 2 0, data.getD 3 0, data.getD 4 0,
    data.drop FRAGMENT_HEADER_SIZE)

/-- `is_fragmented` from fragment.rs. -/
def is_fragmented (data : Bytes) : Bool :=
  if data.length < FRAGMENT_HEADER_SIZE then false
  else data.getD 0 0 == FRAGMENT_MAGIC

/-- One reassembly entry (`FragmentEntry`).  The `created: Instant` field is
omitted: it is consulted only by the wall-clock sweep `cleanup_stale`, which
none of the verified properties involve. -/
structure FragmentEntry where
  data : List (Option Bytes)
  total : Nat
  received : Nat
  deriving Repr, DecidableEq

/-- `FragmentBuffer`: its `fragments: HashMap<u16, FragmentEntry>` is modelled
as a function from packet id to an optional entry.  The `timeout_secs` field
is omitted together with `cleanup_stale` (wall-clock behaviour). -/
structure FragmentBuffer where
  fragments : Nat → Option FragmentEntry

/-- `FragmentBuffer::new` (and `Default`): empty map. -/
def FragmentBuffer.new : FragmentBuffer := ⟨fun _ => none⟩

/-- Reassembly at completion: the source concatenates
`entry.data.iter().flat_map(|f| f.as_ref().unwrap')`; the `unwrap'` never
fails there because `received == total` forces every slot to be `Some`, so
the model reads absent slots as `[]`. -/
def reassemble (parts : List (Option Bytes)) : Bytes :=
  parts.foldr (fun part acc => part.getD [] ++ acc) []

/-- `FragmentBuffer::receive_fragment`: returns the updated buffer and the
reassembled packet when complete.  Mirrors the source order of checks:
parse; reject `total == 0` or `frag_num >= total`; `entry().or_insert_with`;
reject mismatched `total` (the map is unchanged — the entry either already
existed or was freshly inserted with the same `total`); store the fragment
only when the slot is in range and still empty; emit and remove on
completion. -/
def FragmentBuffer.receive_fragment (buf : FragmentBuffer) (data : Bytes) :
    FragmentBuffer × Option Bytes :=
  match parse_fragment data with
  | none => (buf, none)
  | some (packet_id, frag_num, total, payload) =>
    if total = 0 ∨ total ≤ frag_num then (buf, none)
    else
      let entry := (buf.fragments packet_id).getD
        { data := List.replicate total none, total := total, received := 0 }
      if entry.total ≠ total then (buf, none)
      else
        let idx := frag_num
        let entry' :=
          if idx < entry.data.length ∧ entry.data.getD idx none = none then
            { entry with data := entry.data.set idx (some payload),
                         received := entry.received + 1 }
          else entry
        if entry'.received = entry'.total then
          (⟨fun pid => if pid = packet_id then none else buf.fragments pid⟩,
            some (reassemble entry'.data))
        else
          (⟨fun pid => if pid = packet_id then some entry' else buf.fragments pid⟩,
            none)

/-- Feed a list of datagrams through `receive_fragment` one after the other,
collecting each call's return value. -/
def feedAll (buf : FragmentBuffer) : List Bytes → FragmentBuffer × List (Option Bytes)
  | [] => (buf, [])
  | d :: ds =>
    let r := buf.receive_fragment d
    let rest := feedAll r.1 ds
    (rest.1, r.2 :: rest.2)

/-! ### Facts about `chunksOf` -/

theorem chunksOf_flatten (k : Nat) (hk : 0 < k) (l : Bytes) :
    (chunksOf k l).flatten = l := by
  by_cases hl : l = []
  · subst hl; rw [chunksOf]; simp
  · rw [chunksOf, dif_neg (by push_neg; exact ⟨Nat.pos_iff_ne_zero.mp hk, hl⟩)]
    have ih := chunksOf_flatten k hk (l.drop k)
    simp [ih]
termination_by l.length
decreasing_by
  simp only [List.length_drop]
  exact Nat.sub_lt (List.length_pos.mpr hl) hk

theorem chunksOf_ne_nil (k : Nat) (hk : 0 < k) (l : Bytes) (hl : l ≠ []) :
    chunksOf k l ≠ [] := by
  rw [chunksOf]
  split
  · next h =>
    rcases h with h | h
    · exact absurd h (Nat.pos_iff_ne_zero.mp hk)
    · exact absurd h hl
  · simp

theorem chunksOf_length_le (k : Nat) (hk : 0 < k) :
    ∀ (c : Nat) (l : Bytes), l.length ≤ c * k → (chunksOf k l).length ≤ c := by
  intro c
  induction c with
  | zero =>
    intro l hl
    rw [chunksOf]
    split
    · simp
    · next h =>
      rcases not_or.mp h with ⟨_, hne⟩
      have := List.length_pos.mpr hne
      omega
  | succ c ih =>
    intro l hl
    rw [chunksOf]
    split
    · simp
    · next h =>
      simp only [List.length_cons]
      have hrec : (l.drop k).length ≤ c * k := by
        simp only [List.length_drop]
        have hck : (c + 1) * k = c * k + k := by ring
        omega
      exact Nat.succ_le_succ (ih _ hrec)

theorem lt_chunksOf_length (k : Nat) (hk : 0 < k) :
    ∀ (c : Nat) (l : Bytes), c * k < l.length → c < (chunksOf k l).length := by
  intro c
  induction c with
  | zero =>
    intro l hl
    rw [chunksOf]
    split
    · next h =>
      rcases h with h | rfl
      · exact absurd h (Nat.pos_iff_ne_zero.mp hk)
      · simp at hl
    · simp
  | succ c ih =>
    intro l hl
    rw [chunksOf]
    split
    · next h =>
      rcases h with h | rfl
      · exact absurd h (Nat.pos_iff_ne_zero.mp hk)
      · simp at hl
    · next h =>
      simp only [List.length_cons]
      have hrec : c * k < (l.drop k).length := by
        simp only [List.length_drop]
        have : (c + 1) * k = c * k + k := by ring
        omega
      exact Nat.succ_lt_succ (ih _ hrec)

theorem chunksOf_mem_length (k : Nat) (l : Bytes) :
    ∀ c ∈ chunksOf k l, c.length ≤ k := by
  by_cases hl : l = []
  · subst hl; rw [chunksOf]; simp
  · by_cases hk : k = 0
    · subst hk; rw [chunksOf]; simp
    · rw [chunksOf, dif_neg (by push_neg; exact ⟨hk, hl⟩)]
      intro c hc
      rcases List.mem_cons.mp hc with rfl | hc
      · simp
      · exact chunksOf_mem_length k (l.drop k) c hc
termination_by l.length
decreasing_by
  simp only [List.length_drop]
  exact Nat.sub_lt (List.length_pos.mpr hl) (Nat.pos_of_ne_zero hk)

theorem chunksOf_singleton (k : Nat) (hk : 0 < k) (l : Bytes) (hne : l ≠ [])
    (hle : l.length ≤ k) : chunksOf k l = [l] := by
  rw [chunksOf]
  split
  · next h =>
    rcases h with h | h
    · exact absurd h (Nat.pos_iff_ne_zero.mp hk)
    · exact absurd h hne
  · rw [List.take_of_length_le hle, List.drop_eq_nil_of_le hle]
    rw [chunksOf]
    simp

/-! ### Round-trip machinery

`mkFrag pid chunks i` is the fragment that `fragment_packet` emits for
chunk `i` when the packet splits into `chunks` (so `total = chunks.length`);
`c1Entry`/`c1State` describe the buffer contents after an arbitrary subset
`R` of those fragments has been received. -/

def mkFrag (packet_id : Nat) (chunks : List Bytes) (i : Nat) : Bytes :=
  FRAGMENT_MAGIC :: packetIdBytes packet_id ++ i :: chunks.length :: chunks.getD i []

theorem fragment_packet_eq_map (packet : Bytes) (pid mp : Nat)
    (hmp : 5 < mp) (hne : packet ≠ [])
    (hbound : packet.length ≤ 255 * (mp - 5)) :
    fragment_packet packet pid mp
      = (List.range (chunksOf (mp - 5) packet).length).map
          (mkFrag pid (chunksOf (mp - 5) packet)) := by
  have hk : 0 < mp - 5 := by omega
  have hn255 : (chunksOf (mp - 5) packet).length ≤ 255 :=
    chunksOf_length_le (mp - 5) hk 255 packet (by omega)
  rw [fragment_packet]
  rw [if_neg (by simp only [FRAGMENT_HEADER_SIZE]; omega)]
  simp only [FRAGMENT_HEADER_SIZE]
  rw [if_neg (by omega)]
  by_cases hle : packet.length ≤ mp - 5
  · rw [if_pos hle]
    rw [chunksOf_singleton (mp - 5) hk packet hne hle]
    simp [mkFrag, show List.range 1 = [0] from rfl]
  · rw [if_neg hle]
    have htake : (chunksOf (mp - 5) packet).enum.take 255
        = (chunksOf (mp - 5) packet).enum := by
      apply List.take_of_length_le
      simpa using hn255
    rw [htake]
    have hmin : min (chunksOf (mp - 5) packet).length 255
        = (chunksOf (mp - 5) packet).length := Nat.min_eq_left hn255
    rw [hmin]
    apply List.ext_getElem
    · simp
    · intro j hj1 hj2
      simp only [List.getElem_map, List.getElem_enum, List.getElem_range]
      have hjn : j < (chunksOf (mp - 5) packet).length := by simpa using hj1
      have hj256 : j % 256 = j := Nat.mod_eq_of_lt (by omega)
      rw [mkFrag, hj256, List.getD_eq_getElem _ _ hjn]

theorem c1Entry_nil_eq (chunks : List Bytes) :
    ({ data := (List.range chunks.length).map
          (fun j => if j ∈ ([] : List Nat) then some (chunks.getD j []) else none),
       total := chunks.length, received := 0 } : FragmentEntry)
      = { data := List.replicate chunks.length none,
          total := chunks.length, received := 0 } := by
  simp [List.eq_replicate_iff]

/-- The buffer entry describing receipt of the fragments listed in `R`. -/
def c1Entry (chunks : List Bytes) (R : List Nat) : FragmentEntry :=
  { data := (List.range chunks.length).map
      (fun j => if j ∈ R then some (chunks.getD j []) else none),
    total := chunks.length,
    received := R.length }

/-- The buffer holding exactly the fragments `R` of one fragmented packet. -/
def c1State (packet_id : Nat) (chunks : List Bytes) (R : List Nat) :
    FragmentBuffer :=
  ⟨fun p => if p = packet_id ∧ R ≠ [] then some (c1Entry chunks R) else none⟩

theorem c1State_nil (pid : Nat) (chunks : List Bytes) :
    c1State pid chunks [] = FragmentBuffer.new := by
  unfold c1State FragmentBuffer.new
  congr 1
  funext p
  simp

theorem parse_mkFrag (pid : Nat) (chunks : List Bytes) (i : Nat)
    (hpid : pid < 65536) :
    parse_fragment (mkFrag pid chunks i)
      = some (pid, i, chunks.length, chunks.getD i []) := by
  have h1 : pid / 256 < 256 := Nat.div_lt_of_lt_mul (by omega)
  have h2 : (pid / 256) % 256 = pid / 256 := Nat.mod_eq_of_lt h1
  unfold parse_fragment mkFrag packetIdBytes FRAGMENT_MAGIC FRAGMENT_HEADER_SIZE
  simp only [List.cons_append, List.nil_append, List.length_cons,
    List.getD_cons_zero, List.getD_cons_succ, List.drop_succ_cons,
    List.drop_zero]
  rw [if_neg (by omega), if_neg (by omega), h2]
  rw [Nat.div_add_mod pid 256]

theorem c1Entry_data_set (chunks : List Bytes) (R : List Nat) (i : Nat)
    (hi : i < chunks.length) :
    (c1Entry chunks R).data.set i (some (chunks.getD i []))
      = (c1Entry chunks (R ++ [i])).data := by
  apply List.ext_getElem
  · simp [c1Entry]
  · intro j hj1 hj2
    have hjn : j < chunks.length := by simpa [c1Entry] using hj2
    simp only [c1Entry] at hj1 hj2 ⊢
    rw [List.getElem_set]
    simp only [List.getElem_map, List.getElem_range]
    by_cases hij : i = j
    · subst hij
      simp
    · simp only [if_neg hij, List.mem_append, List.mem_singleton]
      have : (j = i) = False := by
        simp only [eq_iff_iff, iff_false]
        exact fun h => hij h.symm
      simp [this]

theorem reassemble_map_some (g : Nat → Bytes) (l : List Nat) :
    reassemble (l.map (fun j => some (g j))) = (l.map g).flatten := by
  induction l with
  | nil => rfl
  | cons a l ih => simp [reassemble, List.foldr_cons] at ih ⊢; rw [ih]

theorem map_getD_range (l : List Bytes) :
    (List.range l.length).map (fun j => l.getD j []) = l := by
  apply List.ext_getElem
  · simp
  · intro j hj1 hj2
    simp only [List.getElem_map, List.getElem_range]
    exact List.getD_eq_getElem _ _ hj2

/-- A duplicate-free list of naturals below `n` with `n` elements contains
every natural below `n`. -/
theorem mem_of_nodup_length (n : Nat) (R : List Nat) (hnodup : R.Nodup)
    (hlt : ∀ j ∈ R, j < n) (hlen : R.length = n) : ∀ j < n, j ∈ R := by
  intro j hj
  have hsub : R.toFinset ⊆ Finset.range n := by
    intro x hx
    exact Finset.mem_range.mpr (hlt x (List.mem_toFinset.mp hx))
  have hcard : R.toFinset.card = n := by
    rw [List.toFinset_card_of_nodup hnodup, hlen]
  have : R.toFinset = Finset.range n := by
    apply Finset.eq_of_subset_of_card_le hsub
    rw [hcard, Finset.card_range]
  have hjmem : j ∈ R.toFinset := by
    rw [this]; exact Finset.mem_range.mpr hj
  exact List.mem_toFinset.mp hjmem

theorem c1Entry_full_reassemble (chunks : List Bytes) (R : List Nat)
    (hnodup : R.Nodup) (hlt : ∀ j ∈ R, j < chunks.length)
    (hlen : R.length = chunks.length) :
    reassemble ((c1Entry chunks R).data) = chunks.flatten := by
  have hcover := mem_of_nodup_length chunks.length R hnodup hlt hlen
  have hdata : (c1Entry chunks R).data
      = (List.range chunks.length).map (fun j => some (chunks.getD j [])) := by
    simp only [c1Entry]
    apply List.map_congr_left
    intro j hj
    rw [if_pos (hcover j (List.mem_range.mp hj))]
  rw [hdata, reassemble_map_some, map_getD_range]


theorem c1Entry_nil (chunks : List Bytes) :
    c1Entry chunks []
      = { data := List.replicate chunks.length none,
          total := chunks.length, received := 0 } :=
  c1Entry_nil_eq chunks

theorem receive_c1_step (pid : Nat) (chunks : List Bytes) (R : List Nat) (i : Nat)
    (hpid : pid < 65536) (hi : i < chunks.length) (hiR : i ∉ R)
    (hR : ∀ j ∈ R, j < chunks.length) (hnodup : R.Nodup) :
    (c1State pid chunks R).receive_fragment (mkFrag pid chunks i)
      = if R.length + 1 = chunks.length
        then (FragmentBuffer.new, some chunks.flatten)
        else (c1State pid chunks (R ++ [i]), none) := by
  have hn0 : 0 < chunks.length := Nat.lt_of_le_of_lt (Nat.zero_le i) hi
  have hlookup : ((c1State pid chunks R).fragments pid).getD
      { data := List.replicate chunks.length none, total := chunks.length,
        received := 0 }
      = c1Entry chunks R := by
    by_cases hR0 : R = []
    · subst hR0
      simp [c1State, c1Entry_nil]
    · simp [c1State, hR0]
  have hdlen : (c1Entry chunks R).data.length = chunks.length := by
    simp [c1Entry]
  have hslot : (c1Entry chunks R).data.getD i none = none := by
    rw [List.getD_eq_getElem _ _ (by rw [hdlen]; exact hi)]
    simp [c1Entry, hiR]
  unfold FragmentBuffer.receive_fragment
  rw [parse_mkFrag pid chunks i hpid]
  simp only [if_neg (show ¬ (chunks.length = 0 ∨ chunks.length ≤ i) by omega)]
  rw [hlookup]
  rw [if_neg (show ¬ (c1Entry chunks R).total ≠ chunks.length by simp [c1Entry])]
  have hcond : i < (c1Entry chunks R).data.length ∧
      (c1Entry chunks R).data.getD i none = none := ⟨hdlen ▸ hi, hslot⟩
  simp only [if_pos hcond]
  simp only [c1Entry_data_set chunks R i hi,
    show (c1Entry chunks R).received = R.length from rfl,
    show (c1Entry chunks R).total = chunks.length from rfl]
  by_cases hfull : R.length + 1 = chunks.length
  · simp only [if_pos hfull]
    have hnodup' : (R ++ [i]).Nodup := by
      rw [List.nodup_append]
      refine ⟨hnodup, List.nodup_singleton i, ?_⟩
      intro a haR hai
      rw [List.mem_singleton] at hai
      exact hiR (hai ▸ haR)
    have hlt' : ∀ j ∈ R ++ [i], j < chunks.length := by
      intro j hj
      rcases List.mem_append.mp hj with hj | hj
      · exact hR j hj
      · rw [List.mem_singleton] at hj; exact hj ▸ hi
    have hlen' : (R ++ [i]).length = chunks.length := by
      simp [hfull]
    rw [c1Entry_full_reassemble chunks (R ++ [i]) hnodup' hlt' hlen']
    refine Prod.ext ?_ rfl
    show (⟨fun p => if p = pid then none else (c1State pid chunks R).fragments p⟩
      : FragmentBuffer) = FragmentBuffer.new
    congr 1
    funext p
    by_cases hp : p = pid <;> simp [hp, c1State, FragmentBuffer.new]
  · simp only [if_neg hfull]
    refine Prod.ext ?_ rfl
    show (⟨fun p => if p = pid then some
        { data := (c1Entry chunks (R ++ [i])).data, total := chunks.length,
          received := R.length + 1 }
      else (c1State pid chunks R).fragments p⟩ : FragmentBuffer)
      = c1State pid chunks (R ++ [i])
    congr 1
    funext p
    by_cases hp : p = pid
    · subst hp
      simp [c1State, c1Entry]
    · simp [hp, c1State]


theorem c1_feed_loop (pid : Nat) (chunks : List Bytes) (hpid : pid < 65536) :
    ∀ (idxs R : List Nat), (R ++ idxs).Nodup →
      (∀ j ∈ R ++ idxs, j < chunks.length) →
      R.length + idxs.length = chunks.length → idxs ≠ [] →
      (feedAll (c1State pid chunks R) (idxs.map (mkFrag pid chunks))).2
        = List.replicate (idxs.length - 1) none ++ [some chunks.flatten] := by
  intro idxs
  induction idxs with
  | nil => intro R _ _ _ hne; exact absurd rfl hne
  | cons i rest ih =>
    intro R hnodup hlt hlen _
    have hnodupR : R.Nodup := (List.nodup_append.mp hnodup).1
    have hiR : i ∉ R := by
      intro hmem
      have hdisj := (List.nodup_append.mp hnodup).2.2
      exact hdisj hmem (List.mem_cons_self i rest)
    have hi : i < chunks.length :=
      hlt i (List.mem_append.mpr (Or.inr (List.mem_cons_self i rest)))
    have hRlt : ∀ j ∈ R, j < chunks.length := fun j hj =>
      hlt j (List.mem_append.mpr (Or.inl hj))
    have hstep := receive_c1_step pid chunks R i hpid hi hiR hRlt hnodupR
    simp only [List.map_cons, feedAll, hstep]
    cases rest with
    | nil =>
      have hfull : R.length + 1 = chunks.length := by
        simpa using hlen
      simp [if_pos hfull, feedAll]
    | cons r0 rs =>
      have hnotfull : ¬ (R.length + 1 = chunks.length) := by
        have : (r0 :: rs).length > 0 := by simp
        simp only [List.length_cons] at hlen
        omega
      rw [if_neg hnotfull]
      have harr : R ++ i :: r0 :: rs = (R ++ [i]) ++ (r0 :: rs) := by
        simp
      have ihres := ih (R ++ [i]) (by rw [← harr]; exact hnodup)
        (by rw [← harr]; exact hlt)
        (by simp only [List.length_append, List.length_cons, List.length_nil] at hlen ⊢; omega)
        (by simp)
      simp only [ihres]
      simp [List.replicate_succ]


/-- C1: Fragment round-trip.  For every packet with
`0 < |packet| ≤ 255*(max_payload-5)`, every `max_payload > 5` and every
(16-bit) `packet_id`, feeding the fragments of
`fragment_packet packet packet_id max_payload` into a fresh
`FragmentBuffer` in any arrival order makes `receive_fragment` return
`none` for every fragment but the last fed, and the original packet for
the last fed. -/
theorem C1_fragment_roundtrip_any_order (packet : Bytes) (pid mp : Nat) (order : List Bytes)
    (hpid : pid < 65536) (hmp : 5 < mp) (hpos : 0 < packet.length)
    (hbound : packet.length ≤ 255 * (mp - 5))
    (hperm : order.Perm (fragment_packet packet pid mp)) :
    (feedAll FragmentBuffer.new order).2
      = List.replicate (order.length - 1) none ++ [some packet] := by
  have hk : 0 < mp - 5 := by omega
  have hne : packet ≠ [] := List.ne_nil_of_length_pos hpos
  set chunks := chunksOf (mp - 5) packet with hchunks
  set n := chunks.length with hn
  have hfrag : fragment_packet packet pid mp
      = (List.range n).map (mkFrag pid chunks) :=
    fragment_packet_eq_map packet pid mp hmp hne hbound
  have hext : ∀ i, (mkFrag pid chunks i).getD 3 0 = i := by
    intro i
    simp [mkFrag, packetIdBytes]
  set ext : Bytes → Nat := fun d => d.getD 3 0 with hextdef
  have hidx : (order.map ext).Perm (List.range n) := by
    have hm := hperm.map ext
    rw [hfrag, List.map_map] at hm
    have h2 : (List.range n).map (ext ∘ mkFrag pid chunks) = List.range n := by
      have hc : ext ∘ mkFrag pid chunks = id := by
        funext i; exact hext i
      rw [hc, List.map_id]
    rwa [h2] at hm
  have horder : (order.map ext).map (mkFrag pid chunks) = order := by
    rw [List.map_map]
    conv_rhs => rw [← List.map_id order]
    apply List.map_congr_left
    intro d hd
    have hdmem : d ∈ fragment_packet packet pid mp := hperm.subset hd
    rw [hfrag] at hdmem
    obtain ⟨i, hi, rfl⟩ := List.mem_map.mp hdmem
    show mkFrag pid chunks ((mkFrag pid chunks i).getD 3 0) = mkFrag pid chunks i
    rw [hext i]
  have hnpos : 0 < n :=
    List.length_pos.mpr (chunksOf_ne_nil (mp - 5) hk packet hne)
  have hfeed := c1_feed_loop pid chunks hpid (order.map ext) []
    (by simpa using hidx.nodup_iff.mpr (List.nodup_range n))
    (by intro j hj
        simp only [List.nil_append] at hj
        exact List.mem_range.mp (hidx.subset hj))
    (by simpa using hidx.length_eq)
    (by intro hnil
        rw [hnil] at hidx
        have hlen := hidx.length_eq
        simp at hlen
        omega)
  rw [c1State_nil, horder] at hfeed
  rw [hfeed, hchunks, chunksOf_flatten (mp - 5) hk packet]
  simp

/-- Witness for C1: the 7 fragments of a 100-byte packet fed in reverse. -/
theorem C1_fragment_roundtrip_any_order_witness :
    (feedAll FragmentBuffer.new (fragment_packet (List.range 100) 1 20).reverse).2
      = List.replicate
          ((fragment_packet (List.range 100) 1 20).reverse.length - 1) none
          ++ [some (List.range 100)] :=
  C1_fragment_roundtrip_any_order (List.range 100) 1 20 _ (by decide) (by decide)
    (by decide) (by decide) (fragment_packet (List.range 100) 1 20).reverse_perm


/-- C6: `is_fragmented b` returns true iff `|b| ≥ 5` and `b[0] = 0x53`. -/
theorem C6_is_fragmented_iff (b : Bytes) :
    is_fragmented b = true ↔ 5 ≤ b.length ∧ b.getD 0 0 = 0x53 := by
  constructor
  · intro h
    unfold is_fragmented FRAGMENT_HEADER_SIZE FRAGMENT_MAGIC at h
    split at h
    · simp at h
    · next hlen => exact ⟨by omega, by simpa using h⟩
  · rintro ⟨h1, h2⟩
    unfold is_fragmented FRAGMENT_HEADER_SIZE FRAGMENT_MAGIC
    rw [if_neg (by omega)]
    simpa using h2

/-- Witness for C6. -/
theorem C6_witness : is_fragmented [0x53, 9, 9, 9, 9] = true :=
  (C6_is_fragmented_iff [0x53, 9, 9, 9, 9]).mpr (by decide)

/-- Invariant of every reachable `FragmentBuffer`: no stored entry is
already complete (a completed entry is emitted and removed at once). -/
def BufferWF (buf : FragmentBuffer) : Prop :=
  ∀ p e, buf.fragments p = some e → e.received ≠ e.total

theorem bufferWF_new : BufferWF FragmentBuffer.new := by
  intro p e h
  simp [FragmentBuffer.new] at h

theorem bufferWF_receive (buf : FragmentBuffer) (d : Bytes)
    (hwf : BufferWF buf) : BufferWF (buf.receive_fragment d).1 := by
  unfold BufferWF
  intro p e he
  unfold FragmentBuffer.receive_fragment at he
  rcases hp : parse_fragment d with _ | ⟨⟨pid, frag, tot, payload⟩⟩
  · rw [hp] at he
    simp only [] at he
    exact hwf p e he
  · rw [hp] at he
    simp only [] at he
    split at he
    · exact hwf p e he
    · split at he
      · exact hwf p e he
      · split at he <;> split at he <;>
          [skip; rename_i hne; skip; rename_i hne] <;>
          simp only [] at he <;>
          by_cases hppid : p = pid
        · rw [if_pos hppid] at he
          exact absurd he (by simp)
        · rw [if_neg hppid] at he
          exact hwf p e he
        · rw [if_pos hppid] at he
          injection he with he
          rw [← he]
          simpa using hne
        · rw [if_neg hppid] at he
          exact hwf p e he
        · rw [if_pos hppid] at he
          exact absurd he (by simp)
        · rw [if_neg hppid] at he
          exact hwf p e he
        · rw [if_pos hppid] at he
          injection he with he
          rw [← he]
          simpa using hne
        · rw [if_neg hppid] at he
          exact hwf p e he

/-- C7: `receive_fragment` rejects without touching accumulated state: a
fragment with `total = 0`, or `frag_num ≥ total`, or a `total` differing from
the stored entry's, returns `none` and leaves every entry exactly as before;
a duplicate of an already-present `frag_num` likewise leaves the stored parts
and received count unchanged.  `BufferWF` is the invariant (established by
`bufferWF_new` and preserved by `bufferWF_receive`) that holds of every
reachable buffer state. -/
theorem C7_receive_fragment_reject_preserves_state (buf : FragmentBuffer)
    (data : Bytes) (pid frag tot : Nat) (payload : Bytes)
    (hwf : BufferWF buf)
    (hparse : parse_fragment data = some (pid, frag, tot, payload)) :
    (tot = 0 ∨ tot ≤ frag → buf.receive_fragment data = (buf, none)) ∧
    (∀ e, buf.fragments pid = some e → e.total ≠ tot →
      buf.receive_fragment data = (buf, none)) ∧
    (∀ e, buf.fragments pid = some e → e.data.getD frag none ≠ none →
      buf.receive_fragment data = (buf, none)) := by
  refine ⟨?_, ?_, ?_⟩
  · intro h
    unfold FragmentBuffer.receive_fragment
    rw [hparse]
    simp only []
    rw [if_pos h]
  · intro e he hne
    unfold FragmentBuffer.receive_fragment
    rw [hparse]
    simp only []
    by_cases h0 : tot = 0 ∨ tot ≤ frag
    · rw [if_pos h0]
    · rw [if_neg h0, he]
      simp only [Option.getD_some]
      rw [if_pos hne]
  · intro e he hdup
    unfold FragmentBuffer.receive_fragment
    rw [hparse]
    simp only []
    by_cases h0 : tot = 0 ∨ tot ≤ frag
    · rw [if_pos h0]
    · rw [if_neg h0, he]
      simp only [Option.getD_some]
      by_cases hmt : e.total ≠ tot
      · rw [if_pos hmt]
      · rw [if_neg hmt]
        rw [if_neg (show ¬ (frag < e.data.length ∧ e.data.getD frag none = none)
          from fun hc => hdup hc.2)]
        rw [if_neg (hwf pid e he)]
        refine Prod.ext ?_ rfl
        show (⟨fun p => if p = pid then some e else buf.fragments p⟩
          : FragmentBuffer) = buf
        cases buf with
        | mk f =>
          congr 1
          funext p
          by_cases hp : p = pid
          · rw [if_pos hp, hp]
            exact he.symm
          · rw [if_neg hp]

/-- Witness for C7: a fragment with `total = 0` is rejected and the empty
buffer is unchanged. -/
theorem C7_witness :
    FragmentBuffer.new.receive_fragment [0x53, 0, 1, 0, 0]
      = (FragmentBuffer.new, none) :=
  (C7_receive_fragment_reject_preserves_state FragmentBuffer.new
    [0x53, 0, 1, 0, 0] 1 0 0 [] bufferWF_new (by decide)).1 (Or.inl rfl)


theorem fragment_packet_nil_of_le (packet : Bytes) (pid mp : Nat)
    (h : mp ≤ 5) : fragment_packet packet pid mp = [] := by
  unfold fragment_packet FRAGMENT_HEADER_SIZE
  rw [if_pos h]

theorem fragment_packet_payload_le (packet : Bytes) (pid mp : Nat) :
    ∀ f ∈ fragment_packet packet pid mp, (f.drop 5).length ≤ mp - 5 := by
  intro f hf
  unfold fragment_packet FRAGMENT_HEADER_SIZE at hf
  simp only [] at hf
  split at hf
  · simp at hf
  · next hmp =>
    split at hf
    · simp at hf
    · split at hf
      · next hle =>
        rw [List.mem_singleton] at hf
        subst hf
        simpa [packetIdBytes] using hle
      · next hgt =>
        obtain ⟨ic, hic, rfl⟩ := List.mem_map.mp hf
        have hmem : ic ∈ (chunksOf (mp - 5) packet).enum :=
          List.mem_of_mem_take hic
        rw [List.enum_eq_zip_range] at hmem
        obtain ⟨i, c⟩ := ic
        have hc : c ∈ chunksOf (mp - 5) packet := (List.of_mem_zip hmem).2
        simpa [packetIdBytes] using chunksOf_mem_length (mp - 5) packet c hc

theorem fragment_packet_length_le (packet : Bytes) (pid mp : Nat) :
    (fragment_packet packet pid mp).length ≤ 255 := by
  unfold fragment_packet FRAGMENT_HEADER_SIZE
  simp only []
  split
  · simp
  · split
    · simp
    · split
      · simp
      · simp [List.length_take]

theorem fragment_packet_truncates (packet : Bytes) (pid mp : Nat)
    (hmp : 5 < mp) (hbig : 255 * (mp - 5) < packet.length) :
    (fragment_packet packet pid mp).length = 255 ∧
    (fragment_packet packet pid mp).map (fun f => f.drop 5)
      = (chunksOf (mp - 5) packet).take 255 := by
  have hk : 0 < mp - 5 := by omega
  have hgt : ¬ packet.length ≤ mp - 5 := by nlinarith
  have hn : 255 < (chunksOf (mp - 5) packet).length :=
    lt_chunksOf_length (mp - 5) hk 255 packet hbig
  unfold fragment_packet FRAGMENT_HEADER_SIZE
  rw [if_neg (by omega), if_neg (by omega), if_neg hgt]
  constructor
  · simp only [List.length_map, List.length_take, List.enum_length]
    omega
  · rw [List.map_map]
    have hstep : ((chunksOf (mp - 5) packet).enum.take 255).map
        ((fun f => f.drop 5) ∘ (fun ic =>
          FRAGMENT_MAGIC :: packetIdBytes pid
            ++ ic.1 % 256 :: min (chunksOf (mp - 5) packet).length 255 :: ic.2))
        = ((chunksOf (mp - 5) packet).enum.take 255).map Prod.snd := by
      apply List.map_congr_left
      intro ic hic
      simp [packetIdBytes]
    rw [hstep, List.map_take, List.enum_map_snd]

theorem flatten_take_chunksOf (k : Nat) (hk : 0 < k) (m : Nat) :
    ∀ l : Bytes, ((chunksOf k l).take m).flatten = l.take (m * k) := by
  induction m with
  | zero => intro l; simp
  | succ m ih =>
    intro l
    by_cases hl : l = []
    · subst hl; rw [chunksOf]; simp
    · rw [chunksOf, dif_neg (by push_neg; exact ⟨Nat.pos_iff_ne_zero.mp hk, hl⟩)]
      rw [List.take_cons (by omega), List.flatten_cons]
      simp only [Nat.add_sub_cancel]
      rw [ih (l.drop k)]
      rw [show (m + 1) * k = k + m * k by ring, List.take_add]


/-- The fragment-and-send step of `run_client`
(`runtime/mod.rs`, the `poll_send` loop): each packet is passed to
`fragment_packet` and every returned fragment is DNS-encoded and sent; the
caller performs no size check and has no rejection path for packets that
would need more than 255 fragments. -/
def client_fragment_send (packet : Bytes) (packet_id max_payload : Nat) :
    List Bytes :=
  fragment_packet packet packet_id max_payload

/-- C3 (amended): if `max_payload ≤ 5` then `fragment_packet` returns no
fragments; otherwise every fragment's payload is at most `max_payload - 5`
bytes and at most 255 fragments are returned; but a packet that would
require more than 255 fragments is not rejected by the caller — the
fragmenter truncates it to the first 255 chunks (losing the remainder) and
`run_client` sends those fragments. -/
theorem C3_fragment_packet_bounds (packet : Bytes) (pid mp : Nat) :
    (mp ≤ 5 → fragment_packet packet pid mp = []) ∧
    (∀ f ∈ fragment_packet packet pid mp, (f.drop 5).length ≤ mp - 5) ∧
    (fragment_packet packet pid mp).length ≤ 255 ∧
    (5 < mp → 255 * (mp - 5) < packet.length →
      (fragment_packet packet pid mp).length = 255 ∧
      ((fragment_packet packet pid mp).map (fun f => f.drop 5)).flatten
        = packet.take (255 * (mp - 5))) := by
  refine ⟨fragment_packet_nil_of_le packet pid mp,
    fragment_packet_payload_le packet pid mp,
    fragment_packet_length_le packet pid mp, ?_⟩
  intro hmp hbig
  have h := fragment_packet_truncates packet pid mp hmp hbig
  refine ⟨h.1, ?_⟩
  rw [h.2, flatten_take_chunksOf (mp - 5) (by omega) 255 packet]

/-- Witness for C3: a `max_payload` at the header size produces no
fragments. -/
theorem C3_witness : fragment_packet (List.range 20) 3 4 = [] :=
  (C3_fragment_packet_bounds (List.range 20) 3 4).1 (by omega)

/-- Counterexample for C3 as stated: a 256-byte packet with
`max_payload = 6` would need 256 fragments; it is not rejected — the client
send step produces 255 fragments whose payloads reassemble to only the
first 255 bytes of the packet. -/
theorem C3_counterexample :
    255 * (6 - 5) < (List.replicate 256 (7 : Nat)).length ∧
    client_fragment_send (List.replicate 256 7) 0 6 ≠ [] ∧
    (client_fragment_send (List.replicate 256 7) 0 6).length = 255 ∧
    ((client_fragment_send (List.replicate 256 7) 0 6).map
        (fun f => f.drop 5)).flatten ≠ List.replicate 256 7 := by
  have h := fragment_packet_truncates (List.replicate 256 7) 0 6
    (by omega) (by simp only [List.length_replicate]; omega)
  have hflat := flatten_take_chunksOf (6 - 5) (by omega) 255
    (List.replicate 256 (7 : Nat))
  refine ⟨by simp only [List.length_replicate]; omega, ?_, ?_, ?_⟩
  · intro hnil
    have := h.1
    rw [show client_fragment_send (List.replicate 256 7) 0 6
        = fragment_packet (List.replicate 256 7) 0 6 from rfl] at hnil
    rw [hnil] at this
    simp only [List.length_nil] at this
    omega
  · exact h.1
  · rw [show client_fragment_send (List.replicate 256 7) 0 6
        = fragment_packet (List.replicate 256 7) 0 6 from rfl]
    rw [h.2, hflat]
    intro hcontra
    have hlen := congrArg List.length hcontra
    simp only [List.length_take, List.length_replicate] at hlen
    omega


/-! ## Socket addresses (model of `std::net`)

Only what the repository's code consults is modelled: construction,
equality, `to_ipv6_mapped`, and `Display` on the shapes the code prints. -/

/-- `std::net::Ipv4Addr`: four octets. -/
structure Ipv4Addr where
  a : Nat
  b : Nat
  c : Nat
  d : Nat
  deriving Repr, DecidableEq

/-- `std::net::Ipv6Addr`, as its eight 16-bit segments. -/
structure Ipv6Addr where
  segs : List Nat
  deriving Repr, DecidableEq

/-- `Ipv4Addr::to_ipv6_mapped`: `::ffff:a.b.c.d`. -/
def Ipv4Addr.to_ipv6_mapped (ip : Ipv4Addr) : Ipv6Addr :=
  ⟨[0, 0, 0, 0, 0, 0xffff, 256 * ip.a + ip.b, 256 * ip.c + ip.d]⟩

/-- `std::net::SocketAddr` (V4 carries ip/port; V6 additionally flowinfo
and scope id, as in `SocketAddrV6`). -/
inductive SocketAddr where
  | v4 (ip : Ipv4Addr) (port : Nat)
  | v6 (ip : Ipv6Addr) (port : Nat) (flowinfo : Nat) (scope_id : Nat)
  deriving Repr, DecidableEq

/-- `normalize_dual_stack_addr` (textually identical in
`slipstream-client/src/dns/resolver.rs` and
`slipstream-server/src/server.rs`): V4 becomes the v4-mapped V6 socket
address with zero flowinfo and scope id (`SocketAddrV6::new(ip, port, 0, 0)`);
V6 is returned unchanged. -/
def normalize_dual_stack_addr : SocketAddr → SocketAddr
  | .v4 ip port => .v6 ip.to_ipv6_mapped port 0 0
  | .v6 ip port fi sc => .v6 ip port fi sc

/-- `Display` for `Ipv4Addr`. -/
def fmtIpv4 (ip : Ipv4Addr) : String :=
  toString ip.a ++ "." ++ toString ip.b ++ "." ++ toString ip.c ++ "."
    ++ toString ip.d

/-- `Display` for `Ipv6Addr`, modelled on the shapes the repository can
print: Rust writes a v4-mapped address as `::ffff:a.b.c.d`, the all-zero
address as `::` and the loopback as `::1`; for other addresses Rust
compresses the longest zero run, which no verified property exercises, so
the model falls back to the uncompressed lowercase-hex form. -/
def fmtIpv6 (ip : Ipv6Addr) : String :=
  match ip.segs with
  | [0, 0, 0, 0, 0, 0, 0, 0] => "::"
  | [0, 0, 0, 0, 0, 0, 0, 1] => "::1"
  | [0, 0, 0, 0, 0, 0xffff, gh, ij] =>
    "::ffff:" ++ toString (gh / 256) ++ "." ++ toString (gh % 256) ++ "."
      ++ toString (ij / 256) ++ "." ++ toString (ij % 256)
  | segs =>
    String.intercalate ":" (segs.map (fun s => (Nat.toDigits 16 s).asString))

/-- `Display` for `SocketAddr`: `a.b.c.d:port` for V4 and
`[ipv6]:port` (with `%scope` when the scope id is nonzero) for V6. -/
def fmtSocketAddr : SocketAddr → String
  | .v4 ip port => fmtIpv4 ip ++ ":" ++ toString port
  | .v6 ip port _ sc =>
    if sc = 0 then "[" ++ fmtIpv6 ip ++ "]:" ++ toString port
    else "[" ++ fmtIpv6 ip ++ "%" ++ toString sc ++ "]:" ++ toString port

/-- C9: `normalize_dual_stack_addr` maps every IPv4 socket address `(a, p)`
to the IPv6 socket address `(::ffff:a, p)`, is the identity on every IPv6
socket address, and is therefore idempotent. -/
theorem C9_normalize_dual_stack :
    (∀ (ip : Ipv4Addr) (port : Nat),
      normalize_dual_stack_addr (.v4 ip port)
        = .v6 ⟨[0, 0, 0, 0, 0, 0xffff, 256 * ip.a + ip.b, 256 * ip.c + ip.d]⟩
            port 0 0) ∧
    (∀ (ip : Ipv6Addr) (port fi sc : Nat),
      normalize_dual_stack_addr (.v6 ip port fi sc) = .v6 ip port fi sc) ∧
    (∀ x : SocketAddr,
      normalize_dual_stack_addr (normalize_dual_stack_addr x)
        = normalize_dual_stack_addr x) := by
  refine ⟨fun _ _ => rfl, fun _ _ _ _ => rfl, ?_⟩
  intro x
  cases x <;> rfl



/-! ## slipstream-core data types and the client resolver layer -/

/-- `ResolverMode` from `slipstream-core/src/lib.rs`. -/
inductive ResolverMode where
  | Recursive
  | Authoritative
  deriving Repr, DecidableEq

/-- The `{:?}` (Debug) rendering of `ResolverMode`. -/
def fmtResolverMode : ResolverMode → String
  | .Recursive => "Recursive"
  | .Authoritative => "Authoritative"

/-- `AddressFamily` from `slipstream-core/src/lib.rs`. -/
inductive AddressFamily where
  | V4
  | V6
  deriving Repr, DecidableEq

/-- `HostPort` from `slipstream-core/src/lib.rs`. -/
structure HostPort where
  host : String
  port : Nat
  family : AddressFamily
  deriving Repr, DecidableEq

/-- `ResolverSpec` from `slipstream-core/src/lib.rs`. -/
structure ResolverSpec where
  resolver : HostPort
  mode : ResolverMode
  deriving Repr, DecidableEq

/-- Split a character list at every occurrence of `c` (model of the
splitting used by `Ipv4Addr`'s parser). -/
def splitListOn (c : Char) : List Char → List (List Char)
  | [] => [[]]
  | x :: xs =>
    if x = c then [] :: splitListOn c xs
    else
      match splitListOn c xs with
      | [] => [[x]]
      | h :: t => (x :: h) :: t

/-- One octet of an IPv4 literal, with `std`'s rules: nonempty, decimal
digits only, no leading zero, value at most 255. -/
def parseIpv4Octet (s : List Char) : Option Nat :=
  if s = [] then none
  else if ¬ s.all (fun c => c.isDigit) then none
  else if 1 < s.length ∧ s.headD '0' = '0' then none
  else
    let v := s.foldl (fun acc c => acc * 10 + (c.toNat - 48)) 0
    if v ≤ 255 then some v else none

/-- `str::parse::<Ipv4Addr>`: exactly four dot-separated octets. -/
def parseIpv4 (s : String) : Option Ipv4Addr :=
  match (splitListOn '.' s.toList).map parseIpv4Octet with
  | [some a, some b, some c, some d] => some ⟨a, b, c, d⟩
  | _ => none

/-- The literal-IP fast path of `slipstream-core`'s `resolve_host_port`: a
V4-family host that parses as an IPv4 literal resolves to that address
without I/O.  The `to_socket_addrs` fallback performs OS DNS resolution —
external I/O outside the model — so here a host that is not a V4 literal
fails with the source's `Cannot resolve` error, i.e. the model describes an
environment in which non-literal hosts do not resolve (the V6 literal
branch, which no verified property exercises, is likewise not modelled). -/
def resolve_host_port (hp : HostPort) : Except String SocketAddr :=
  match hp.family with
  | .V4 =>
    match parseIpv4 hp.host with
    | some ip => .ok (.v4 ip hp.port)
    | none => .error ("Cannot resolve " ++ hp.host)
  | .V6 => .error ("Cannot resolve " ++ hp.host)

/-- Modelled from the spec: `PacingPollBudget` (the client's pacing module
`pacing.rs` is not present under `src/`).  Per spec §4.3 it is constructed
from the path MTU (`PacingPollBudget::new(mtu)`), which is all the verified
properties consult. -/
structure PacingPollBudget where
  mtu : Nat
  deriving Repr, DecidableEq

/-- Modelled from the spec: `PacingBudgetSnapshot { permitted, inflight }`
(spec §4.3; `pacing.rs` is not present under `src/`). -/
structure PacingBudgetSnapshot where
  permitted : Nat
  inflight : Nat
  deriving Repr, DecidableEq

/-- Modelled from the spec: `DebugMetrics` (`dns/debug.rs` is not present
under `src/`).  `DebugMetrics::new(debug_poll)` records the debug flag;
`run_client` later bumps per-path send counters. -/
structure DebugMetrics where
  debug_poll : Bool
  send_packets : Nat
  send_bytes : Nat
  deriving Repr, DecidableEq

/-- `DebugMetrics::new`. -/
def DebugMetrics.new (debug_poll : Bool) : DebugMetrics :=
  { debug_poll := debug_poll, send_packets := 0, send_bytes := 0 }

/-- `ResolverState` from `slipstream-client/src/dns/resolver.rs`.  The
`inflight_poll_ids: HashMap<u16, u64>` is modelled as an association
list. -/
structure ResolverState where
  addr : SocketAddr
  mode : ResolverMode
  added : Bool
  path_id_tquic : Option Nat
  probe_attempts : Nat
  next_probe_at : Nat
  pending_polls : Nat
  inflight_poll_ids : List (Nat × Nat)
  pacing_budget : Option PacingPollBudget
  last_pacing_snapshot : Option PacingBudgetSnapshot
  debug : DebugMetrics
  deriving Repr, DecidableEq

/-- `HashMap::get` on the `seen` map of `resolve_resolvers`, modelled as an
association-list lookup. -/
def lookupSeen : List (SocketAddr × ResolverMode) → SocketAddr → Option ResolverMode
  | [], _ => none
  | (a, m) :: rest, addr => if a = addr then some m else lookupSeen rest addr

/-- The loop body of `resolve_resolvers`
(`slipstream-client/src/dns/resolver.rs`): resolve each spec, normalize,
reject duplicates with the source's error message, and build the initial
`ResolverState` (the entry at index 0 is the primary path).  The resolution
function is a parameter because `resolve_host_port`'s fallback performs OS
DNS resolution; instantiate it with `resolve_host_port` for literal
hosts. -/
def resolveLoop (res : HostPort → Except String SocketAddr) (mtu : Nat)
    (debug_poll : Bool) (seen : List (SocketAddr × ResolverMode)) (idx : Nat) :
    List ResolverSpec → Except String (List ResolverState)
  | [] => .ok []
  | spec :: rest =>
    match res spec.resolver with
    | .error e => .error e
    | .ok addr0 =>
      let addr := normalize_dual_stack_addr addr0
      match lookupSeen seen addr with
      | some existing_mode =>
        .error ("Duplicate resolver address " ++ fmtSocketAddr addr
          ++ " (modes: " ++ fmtResolverMode existing_mode ++ " and "
          ++ fmtResolverMode spec.mode ++ ")")
      | none =>
        match resolveLoop res mtu debug_poll ((addr, spec.mode) :: seen)
            (idx + 1) rest with
        | .error e => .error e
        | .ok states =>
          .ok ({ addr := addr
               , mode := spec.mode
               , added := idx = 0
               , path_id_tquic := if idx = 0 then some 0 else none
               , probe_attempts := 0
               , next_probe_at := 0
               , pending_polls := 0
               , inflight_poll_ids := []
               , pacing_budget :=
                   match spec.mode with
                   | .Authoritative => some { mtu := mtu }
                   | .Recursive => none
               , last_pacing_snapshot := none
               , debug := DebugMetrics.new debug_poll } :: states)

/-- `resolve_resolvers` from `slipstream-client/src/dns/resolver.rs`. -/
def resolve_resolvers (res : HostPort → Except String SocketAddr)
    (resolvers : List ResolverSpec) (mtu : Nat) (debug_poll : Bool) :
    Except String (List ResolverState) :=
  resolveLoop res mtu debug_poll [] 0 resolvers



theorem lookupSeen_cons_isSome (seen : List (SocketAddr × ResolverMode))
    (x : SocketAddr × ResolverMode) (addr : SocketAddr)
    (h : (lookupSeen seen addr).isSome) :
    (lookupSeen (x :: seen) addr).isSome := by
  obtain ⟨a, m⟩ := x
  unfold lookupSeen
  by_cases ha : a = addr
  · rw [if_pos ha]; rfl
  · rw [if_neg ha]; exact h

theorem resolveLoop_error_of_seen (res : HostPort → Except String SocketAddr)
    (mtu : Nat) (dbg : Bool) :
    ∀ (rest : List ResolverSpec) (seen : List (SocketAddr × ResolverMode))
      (idx : Nat) (s : ResolverSpec) (a : SocketAddr),
      s ∈ rest → res s.resolver = .ok a →
      (lookupSeen seen (normalize_dual_stack_addr a)).isSome →
      ∃ msg, resolveLoop res mtu dbg seen idx rest = .error msg := by
  intro rest
  induction rest with
  | nil => intro seen idx s a hs; exact absurd hs (List.not_mem_nil s)
  | cons spec rest ih =>
    intro seen idx s a hs ha hseen
    rcases List.mem_cons.mp hs with rfl | hs
    · simp only [resolveLoop]
      rw [ha]
      simp only []
      rcases hl : lookupSeen seen (normalize_dual_stack_addr a) with _ | m
      · rw [hl] at hseen; simp at hseen
      · exact ⟨_, rfl⟩
    · simp only [resolveLoop]
      rcases hr : res spec.resolver with e | addr0
      · exact ⟨e, rfl⟩
      · simp only []
        rcases hl : lookupSeen seen (normalize_dual_stack_addr addr0) with _ | m
        · obtain ⟨msg, hmsg⟩ := ih ((normalize_dual_stack_addr addr0, spec.mode)
            :: seen) (idx + 1) s a hs ha
            (lookupSeen_cons_isSome seen _ _ hseen)
          simp only [List.append_eq]
          rw [hmsg]
          exact ⟨msg, rfl⟩
        · exact ⟨_, rfl⟩

theorem resolveLoop_error_of_dup (res : HostPort → Except String SocketAddr)
    (mtu : Nat) (dbg : Bool) :
    ∀ (l1 : List ResolverSpec) (seen : List (SocketAddr × ResolverMode))
      (idx : Nat) (s1 : ResolverSpec) (l2 : List ResolverSpec)
      (s2 : ResolverSpec) (l3 : List ResolverSpec) (a1 a2 : SocketAddr),
      res s1.resolver = .ok a1 → res s2.resolver = .ok a2 →
      normalize_dual_stack_addr a1 = normalize_dual_stack_addr a2 →
      ∃ msg, resolveLoop res mtu dbg seen idx (l1 ++ s1 :: l2 ++ s2 :: l3)
        = .error msg := by
  intro l1
  induction l1 with
  | nil =>
    intro seen idx s1 l2 s2 l3 a1 a2 h1 h2 hnorm
    rw [List.nil_append]
    simp only [resolveLoop]
    rw [h1]
    simp only []
    rcases hl : lookupSeen seen (normalize_dual_stack_addr a1) with _ | m
    · have hmem : s2 ∈ l2 ++ s2 :: l3 :=
        List.mem_append.mpr (Or.inr (List.mem_cons_self s2 l3))
      have hsome : (lookupSeen ((normalize_dual_stack_addr a1, s1.mode) :: seen)
          (normalize_dual_stack_addr a2)).isSome := by
        unfold lookupSeen
        rw [if_pos hnorm]
        rfl
      obtain ⟨msg, hmsg⟩ := resolveLoop_error_of_seen res mtu dbg
        (l2 ++ s2 :: l3) ((normalize_dual_stack_addr a1, s1.mode) :: seen)
        (idx + 1) s2 a2 hmem h2 hsome
      simp only [List.append_eq]
      rw [hmsg]
      exact ⟨msg, rfl⟩
    · exact ⟨_, rfl⟩
  | cons spec l1 ih =>
    intro seen idx s1 l2 s2 l3 a1 a2 h1 h2 hnorm
    rw [List.cons_append]
    simp only [resolveLoop]
    rcases hr : res spec.resolver with e | addr0
    · exact ⟨e, rfl⟩
    · simp only []
      rcases hl : lookupSeen seen (normalize_dual_stack_addr addr0) with _ | m
      · obtain ⟨msg, hmsg⟩ := ih ((normalize_dual_stack_addr addr0, spec.mode)
          :: seen) (idx + 1) s1 l2 s2 l3 a1 a2 h1 h2 hnorm
        simp only [List.append_eq]
        rw [hmsg]
        exact ⟨msg, rfl⟩
      · exact ⟨_, rfl⟩


/-- C4 (amended): two resolver specs that resolve and normalize to the same
v6-mapped socket address make `resolve_resolvers` return a configuration
error; the two `127.0.0.1:8853` specs (Recursive then Authoritative) are
rejected, but the error message renders the *normalized* address and both
modes: `Duplicate resolver address [::ffff:127.0.0.1]:8853 (modes:
Recursive and Authoritative)`. -/
theorem C4_duplicate_resolver_amended :
    (∀ (res : HostPort → Except String SocketAddr) (mtu : Nat) (dbg : Bool)
      (l1 l2 l3 : List ResolverSpec) (s1 s2 : ResolverSpec)
      (a1 a2 : SocketAddr),
      res s1.resolver = .ok a1 → res s2.resolver = .ok a2 →
      normalize_dual_stack_addr a1 = normalize_dual_stack_addr a2 →
      ∃ msg, resolve_resolvers res (l1 ++ s1 :: l2 ++ s2 :: l3) mtu dbg
        = .error msg) ∧
    resolve_resolvers resolve_host_port
      [⟨⟨"127.0.0.1", 8853, .V4⟩, .Recursive⟩,
       ⟨⟨"127.0.0.1", 8853, .V4⟩, .Authoritative⟩] 900 false
      = .error
        "Duplicate resolver address [::ffff:127.0.0.1]:8853 (modes: Recursive and Authoritative)" := by
  constructor
  · intro res mtu dbg l1 l2 l3 s1 s2 a1 a2 h1 h2 hnorm
    exact resolveLoop_error_of_dup res mtu dbg l1 [] 0 s1 l2 s2 l3 a1 a2
      h1 h2 hnorm
  · rfl

/-- Witness for C4 (amended), at the two concrete `127.0.0.1:8853` specs. -/
theorem C4_witness :
    ∃ msg, resolve_resolvers resolve_host_port
      [⟨⟨"127.0.0.1", 8853, .V4⟩, .Recursive⟩,
       ⟨⟨"127.0.0.1", 8853, .V4⟩, .Authoritative⟩] 900 false
      = .error msg :=
  C4_duplicate_resolver_amended.1 resolve_host_port 900 false [] [] []
    ⟨⟨"127.0.0.1", 8853, .V4⟩, .Recursive⟩
    ⟨⟨"127.0.0.1", 8853, .V4⟩, .Authoritative⟩
    (.v4 ⟨127, 0, 0, 1⟩ 8853) (.v4 ⟨127, 0, 0, 1⟩ 8853)
    rfl rfl rfl

/-- Counterexample for C4 as stated: the rejection happens, but its error
message is not `Duplicate resolver address 127.0.0.1:8853` — the address is
printed after v6-mapping and the message carries a modes suffix. -/
theorem C4_counterexample :
    resolve_resolvers resolve_host_port
      [⟨⟨"127.0.0.1", 8853, .V4⟩, .Recursive⟩,
       ⟨⟨"127.0.0.1", 8853, .V4⟩, .Authoritative⟩] 900 false
      = .error
        "Duplicate resolver address [::ffff:127.0.0.1]:8853 (modes: Recursive and Authoritative)"
    ∧ ("Duplicate resolver address [::ffff:127.0.0.1]:8853 (modes: Recursive and Authoritative)"
        : String)
      ≠ "Duplicate resolver address 127.0.0.1:8853" := by
  exact ⟨rfl, by decide⟩



/-! ## Pacing (spec-modelled) and the client poll budget -/

/-- Modelled from the spec: `cwnd_target_polls` from the client's pacing
module (`src/crates/slipstream-client/src/pacing.rs` is not present under
`src/`; only its callers are).  Spec §4.3:
`cwnd_target_polls = max(1, ceil(cwnd_bytes / mtu))`. -/
def cwnd_target_polls (cwnd_bytes mtu : Nat) : Nat :=
  max 1 ((cwnd_bytes + mtu - 1) / mtu)

/-- Modelled from the spec: `inflight_packet_estimate` from the pacing
module (`pacing.rs`, not present under `src/`): the number of packets a
given number of in-flight bytes represents.  The spec fixes its value only
at whole multiples of the MTU (scenario 6: 3600 bytes at mtu 1200 give 3);
modelled as the ceiling of `bytes_in_flight / mtu`, matching the packet
count the bytes occupy. -/
def inflight_packet_estimate (bytes_in_flight mtu : Nat) : Nat :=
  (bytes_in_flight + mtu - 1) / mtu

/-- The pending-poll computation of `run_client`
(`runtime/mod.rs`, the authoritative branch of the sleep/work scan):
`target.saturating_sub(inflight_packets)` — `Nat` subtraction saturates at
zero like `saturating_sub`. -/
def pending_poll_target (cwin mtu bytes_in_transit : Nat) : Nat :=
  cwnd_target_polls cwin mtu - inflight_packet_estimate bytes_in_transit mtu

/-- C5: the poll budget: `cwnd_target_polls = max(1, ceil(cwnd/mtu))`, is
always at least 1, equals `k` at `cwnd = k·mtu`; the pending-poll target of
an authoritative path is the target minus the in-flight estimate clamped at
0; and the spec's concrete scenario: cwnd 9000, mtu 1200 gives target 8,
3600 bytes in flight estimate 3, pending target 5. -/
theorem C5_poll_budget :
    (∀ cwnd mtu : Nat, cwnd_target_polls cwnd mtu = max 1 (cwnd ⌈/⌉ mtu)) ∧
    (∀ cwnd mtu : Nat, 1 ≤ cwnd_target_polls cwnd mtu) ∧
    (∀ k mtu : Nat, 0 < mtu → 1 ≤ k →
      cwnd_target_polls (k * mtu) mtu = k) ∧
    (∀ cwnd mtu b : Nat, pending_poll_target cwnd mtu b
      = cwnd_target_polls cwnd mtu - inflight_packet_estimate b mtu) ∧
    cwnd_target_polls 9000 1200 = 8 ∧
    inflight_packet_estimate 3600 1200 = 3 ∧
    pending_poll_target 9000 1200 3600 = 5 := by
  refine ⟨fun cwnd mtu => rfl, fun cwnd mtu => le_max_left 1 _, ?_,
    fun cwnd mtu b => rfl, by decide, by decide, by decide⟩
  intro k mtu hmtu hk
  unfold cwnd_target_polls
  have h1 : k * mtu + mtu - 1 = mtu - 1 + mtu * k := by
    rw [Nat.mul_comm mtu k]; omega
  rw [h1, Nat.add_mul_div_left _ _ hmtu, Nat.div_eq_of_lt (by omega)]
  omega

/-- Witness for C5 at `k = 4`, `mtu = 7`. -/
theorem C5_witness : cwnd_target_polls (4 * 7) 7 = 4 :=
  C5_poll_budget.2.2.1 4 7 (by decide) (by decide)

/-! ## `compute_mtu` and the client startup path -/

/-- `compute_mtu` from `runtime/mod.rs`: `BASE_MTU = 1200` minus one byte
of overhead per domain character; domains of 1200 or more bytes are
rejected. -/
def compute_mtu (domain_len : Nat) : Except String Nat :=
  let overhead := domain_len * 1
  if 1200 ≤ overhead then .error "Domain too long for DNS tunneling"
  else .ok (1200 - overhead)

/-- `Config` from `slipstream-quic/src/config.rs`, restricted to the fields
the client startup writes.  The `send_udp_payload_size` field and its
builder `with_send_udp_payload_size` are called by `run_client` but their
definition is not among the sources; they are modelled from the spec's
glossary (the MTU is "the maximum bytes the QUIC library is told it may put
in one UDP datagram"), with a zero default that the client always
overwrites. -/
structure QuicConfig where
  enable_multipath : Bool
  send_udp_payload_size : Nat
  keep_alive_interval_ms : Nat
  ca_path : Option String
  deriving Repr, DecidableEq

/-- `Config::new` / `Default` (config.rs): multipath on, 400 ms
keep-alive, no CA pinned. -/
def QuicConfig.new : QuicConfig :=
  { enable_multipath := true, send_udp_payload_size := 0,
    keep_alive_interval_ms := 400, ca_path := none }

/-- `Config::with_multipath`. -/
def QuicConfig.with_multipath (c : QuicConfig) (enable : Bool) : QuicConfig :=
  { c with enable_multipath := enable }

/-- `with_send_udp_payload_size` (see `QuicConfig`). -/
def QuicConfig.with_send_udp_payload_size (c : QuicConfig) (n : Nat) :
    QuicConfig :=
  { c with send_udp_payload_size := n }

/-- `Config::with_keep_alive`. -/
def QuicConfig.with_keep_alive (c : QuicConfig) (ms : Nat) : QuicConfig :=
  { c with keep_alive_interval_ms := ms }

/-- `Config::with_ca`. -/
def QuicConfig.with_ca (c : QuicConfig) (ca : String) : QuicConfig :=
  { c with ca_path := some ca }

/-- The startup path of `run_client` (`runtime/mod.rs`) that the verified
properties consult: derive the MTU from the domain length, build the
resolver states with that MTU, and build the QUIC config with the same MTU
as send UDP payload size.  I/O steps (socket binds, the QUIC connect) are
outside the model. -/
def run_client_setup (res : HostPort → Except String SocketAddr)
    (domain : String) (specs : List ResolverSpec)
    (keep_alive_interval : Nat) (cert : Option String) (debug_poll : Bool) :
    Except String (Nat × List ResolverState × QuicConfig) :=
  match compute_mtu domain.length with
  | .error e => .error e
  | .ok mtu =>
    match resolve_resolvers res specs mtu debug_poll with
    | .error e => .error e
    | .ok resolvers =>
      if resolvers = [] then .error "At least one resolver is required"
      else
        let quic_config :=
          (QuicConfig.new.with_multipath true).with_send_udp_payload_size mtu
        let quic_config :=
          if 0 < keep_alive_interval then
            quic_config.with_keep_alive keep_alive_interval
          else quic_config
        let quic_config :=
          match cert with
          | some c => quic_config.with_ca c
          | none => quic_config
        .ok (mtu, resolvers, quic_config)

theorem compute_mtu_ok (d m : Nat) (h : compute_mtu d = .ok m) :
    d < 1200 ∧ m = 1200 - d := by
  unfold compute_mtu at h
  simp only [] at h
  split at h
  · exact absurd h (by simp)
  · next hlt =>
    refine ⟨by omega, ?_⟩
    injection h with h
    omega

theorem resolveLoop_pacing (res : HostPort → Except String SocketAddr)
    (mtu : Nat) (dbg : Bool) :
    ∀ (specs : List ResolverSpec) (seen : List (SocketAddr × ResolverMode))
      (idx : Nat) (states : List ResolverState),
      resolveLoop res mtu dbg seen idx specs = .ok states →
      ∀ st ∈ states, st.mode = .Authoritative →
        st.pacing_budget = some ⟨mtu⟩ := by
  intro specs
  induction specs with
  | nil =>
    intro seen idx states h st hst hmode
    simp only [resolveLoop] at h
    injection h with h
    rw [← h] at hst
    exact absurd hst (List.not_mem_nil st)
  | cons spec rest ih =>
    intro seen idx states h st hst hmode
    simp only [resolveLoop] at h
    rcases hr : res spec.resolver with e | addr0
    · rw [hr] at h; exact absurd h (by simp)
    · rw [hr] at h
      simp only [] at h
      rcases hl : lookupSeen seen (normalize_dual_stack_addr addr0) with _ | m
      · rw [hl] at h
        simp only [] at h
        rcases hrec : resolveLoop res mtu dbg
            ((normalize_dual_stack_addr addr0, spec.mode) :: seen) (idx + 1)
            rest with e | states'
        · rw [hrec] at h; exact absurd h (by simp)
        · rw [hrec] at h
          simp only [] at h
          injection h with h
          rw [← h] at hst
          rcases List.mem_cons.mp hst with rfl | hst'
          · simp only [] at hmode ⊢
            rw [hmode]
          · exact ih _ _ _ hrec st hst' hmode
      · rw [hl] at h; exact absurd h (by simp)

/-- C10: the client derives the QUIC MTU from the configured domain as
`compute_mtu(domain_len) = 1200 - domain_len`, failing at startup with
`Domain too long for DNS tunneling` whenever `domain_len ≥ 1200`; for every
shorter domain the result is positive and is used both as the QUIC send UDP
payload size and as the per-path pacing MTU (`PacingPollBudget::new(mtu)`
of every authoritative resolver state). -/
theorem C10_compute_mtu_and_uses :
    (∀ dlen : Nat, 1200 ≤ dlen →
      compute_mtu dlen = .error "Domain too long for DNS tunneling") ∧
    (∀ dlen : Nat, dlen < 1200 →
      compute_mtu dlen = .ok (1200 - dlen) ∧ 0 < 1200 - dlen) ∧
    (∀ res domain specs ka cert dbg mtu resolvers cfg,
      run_client_setup res domain specs ka cert dbg
        = .ok (mtu, resolvers, cfg) →
      mtu = 1200 - domain.length ∧
      cfg.send_udp_payload_size = mtu ∧
      ∀ st ∈ resolvers, st.mode = .Authoritative →
        st.pacing_budget = some ⟨mtu⟩) ∧
    (∀ res domain specs ka cert dbg, 1200 ≤ domain.length →
      run_client_setup res domain specs ka cert dbg
        = .error "Domain too long for DNS tunneling") := by
  have herr : ∀ dlen : Nat, 1200 ≤ dlen →
      compute_mtu dlen = .error "Domain too long for DNS tunneling" := by
    intro dlen h
    unfold compute_mtu
    rw [if_pos (by omega)]
  refine ⟨herr, ?_, ?_, ?_⟩
  · intro dlen h
    refine ⟨?_, by omega⟩
    unfold compute_mtu
    simp only []
    rw [if_neg (by omega), Nat.mul_one]
  · intro res domain specs ka cert dbg mtu resolvers cfg h
    unfold run_client_setup at h
    rcases hm : compute_mtu domain.length with e | m
    · rw [hm] at h; exact absurd h (by simp)
    · rw [hm] at h
      simp only [] at h
      rcases hr : resolve_resolvers res specs m dbg with e | states
      · rw [hr] at h; exact absurd h (by simp)
      · rw [hr] at h
        simp only [] at h
        split at h
        · exact absurd h (by simp)
        · injection h with h
          simp only [Prod.mk.injEq] at h
          obtain ⟨h1, h2, h3⟩ := h
          obtain ⟨hd, hm1200⟩ := compute_mtu_ok domain.length m hm
          subst h1
          refine ⟨hm1200, ?_, ?_⟩
          · rw [← h3]
            rcases cert with _ | c <;> by_cases hka : 0 < ka <;>
              simp [QuicConfig.with_ca, QuicConfig.with_keep_alive,
                QuicConfig.with_send_udp_payload_size,
                QuicConfig.with_multipath, hka]
          · rw [← h2]
            exact resolveLoop_pacing res m dbg specs [] 0 states hr
  · intro res domain specs ka cert dbg h
    unfold run_client_setup
    rw [herr domain.length h]

/-- Witness for C10 at a 1300-character domain and at the concrete
successful setup for `example.com` with one authoritative resolver. -/
theorem C10_witness :
    compute_mtu 1300 = .error "Domain too long for DNS tunneling" ∧
    (compute_mtu 11 = .ok 1189 ∧ 0 < 1189) :=
  ⟨C10_compute_mtu_and_uses.1 1300 (by omega),
   C10_compute_mtu_and_uses.2.1 11 (by omega)⟩



/-! ## CLI parsing (`slipstream-core` `parse_host_port`,
`slipstream-client` `build_resolvers`) -/

/-- `AddressKind` from `slipstream-core/src/lib.rs`. -/
inductive AddressKind where
  | Resolver
  | Target
  deriving Repr, DecidableEq

/-- `AddressKind::label`. -/
def AddressKind.label : AddressKind → String
  | .Resolver => "resolver"
  | .Target => "target"

/-- First-occurrence split (`str::find` + slicing, `str::split_once`). -/
def splitOnceChar (c : Char) : List Char → Option (List Char × List Char)
  | [] => none
  | x :: xs =>
    if x = c then some ([], xs)
    else
      match splitOnceChar c xs with
      | none => none
      | some (l, r) => some (x :: l, r)

/-- `str::parse::<u16>`: an optional leading `+`, then at least one decimal
digit, value at most 65535. -/
def parseU16 (l : List Char) : Option Nat :=
  let digits :=
    match l with
    | '+' :: rest => rest
    | _ => l
  if digits = [] then none
  else if ¬ digits.all (fun c => c.isDigit) then none
  else
    let v := digits.foldl (fun acc c => acc * 10 + (c.toNat - 48)) 0
    if v ≤ 65535 then some v else none

/-- `parse_port` from `slipstream-core/src/lib.rs`: a `u16` that is not
zero. -/
def parse_port (port_str : List Char) (input : String) (kind : AddressKind) :
    Except String Nat :=
  match parseU16 port_str with
  | none =>
    .error ("Invalid port number in " ++ kind.label ++ " address: " ++ input)
  | some port =>
    if port = 0 then
      .error ("Invalid port number in " ++ kind.label ++ " address: " ++ input)
    else .ok port

/-- `parse_host_port` from `slipstream-core/src/lib.rs`: bracketed inputs
are IPv6 (with an optional `:port` after the bracket); otherwise an
optional `:port` suffix of digits is split off and the family is V4. -/
def parse_host_port (input : String) (default_port : Nat)
    (kind : AddressKind) : Except String HostPort :=
  match input.toList with
  | '[' :: rest =>
    match splitOnceChar ']' rest with
    | none =>
      .error ("Invalid IPv6 address format (missing closing bracket): "
        ++ input)
    | some (host, remainder) =>
      if host = [] then
        .error ("Invalid IPv6 address in " ++ kind.label ++ ": " ++ input)
      else
        match remainder with
        | [] => .ok ⟨String.mk host, default_port, .V6⟩
        | ':' :: port_str =>
          match parse_port port_str input kind with
          | .error e => .error e
          | .ok port => .ok ⟨String.mk host, port, .V6⟩
        | _ =>
          .error ("Invalid IPv6 address format (missing closing bracket): "
            ++ input)
  | chars =>
    match splitOnceChar ':' chars with
    | some (left, right) =>
      if right = [] then
        .error ("Invalid port number in " ++ kind.label ++ " address: "
          ++ input)
      else if right.all (fun c => c.isDigit) then
        match parse_port right input kind with
        | .error e => .error e
        | .ok port =>
          if left = [] then
            .error ("Invalid " ++ kind.label ++ " address: " ++ input)
          else .ok ⟨String.mk left, port, .V4⟩
      else
        .error ("Invalid port number in " ++ kind.label ++ " address: "
          ++ input)
    | none =>
      if chars = [] then
        .error ("Invalid " ++ kind.label ++ " address: " ++ input)
      else .ok ⟨String.mk chars, default_port, .V4⟩

/-- `build_resolvers`/`collect_resolvers` from
`slipstream-client/src/main.rs`: gather the `--resolver` (Recursive) and
`--authoritative` (Authoritative) occurrences with their command-line
indices and sort by index to recover the textual CLI order.  clap's
`ArgMatches` is modelled as the two `(index, parsed value)` lists (clap
assigns strictly increasing indices in textual order), so the
`indices.len() != values.len()` consistency check of `collect_resolvers`
cannot fail here; Rust's stable `sort_by_key` is modelled by insertion
sort, which agrees with any correct sort because the indices are
distinct. -/
def build_resolvers (resolver_matches authoritative_matches :
    List (Nat × HostPort)) : Except String (List ResolverSpec) :=
  let ordered :=
    resolver_matches.map (fun ih => (ih.1, ResolverSpec.mk ih.2 .Recursive))
      ++ authoritative_matches.map
          (fun ih => (ih.1, ResolverSpec.mk ih.2 .Authoritative))
  if ordered.isEmpty then .error "At least one resolver is required"
  else
    .ok ((ordered.insertionSort (fun a b => a.1 ≤ b.1)).map Prod.snd)

/-- clap's view of a CLI whose resolver-flag occurrences, in textual order,
are `occs`: occurrence `k` carries index `k`; `--resolver` values are
Recursive, `--authoritative` values Authoritative. -/
def matchesOf (occs : List (ResolverMode × HostPort)) :
    List (Nat × HostPort) × List (Nat × HostPort) :=
  ((occs.enum.filter (fun x => x.2.1 == ResolverMode.Recursive)).map
      (fun x => (x.1, x.2.2)),
   (occs.enum.filter (fun x => x.2.1 == ResolverMode.Authoritative)).map
      (fun x => (x.1, x.2.2)))



theorem build_resolvers_ordered (occs : List (ResolverMode × HostPort))
    (hne : occs ≠ []) :
    build_resolvers (matchesOf occs).1 (matchesOf occs).2
      = .ok (occs.map (fun mh => ResolverSpec.mk mh.2 mh.1)) := by
  set g : Nat × ResolverMode × HostPort → Nat × ResolverSpec :=
    fun x => (x.1, ResolverSpec.mk x.2.2 x.2.1) with hg
  set p : Nat × ResolverMode × HostPort → Bool :=
    fun x => x.2.1 == ResolverMode.Recursive with hp
  have hq : (fun x : Nat × ResolverMode × HostPort =>
      x.2.1 == ResolverMode.Authoritative) = fun x => !p x := by
    funext x
    rcases x with ⟨i, m, hp'⟩
    cases m <;> rfl
  have hA : ((occs.enum.filter p).map (fun x => (x.1, x.2.2))).map
      (fun ih => (ih.1, ResolverSpec.mk ih.2 .Recursive))
      = (occs.enum.filter p).map g := by
    rw [List.map_map]
    apply List.map_congr_left
    intro x hx
    have hm : x.2.1 = ResolverMode.Recursive := by
      have := (List.mem_filter.mp hx).2
      rw [hp] at this
      exact eq_of_beq this
    simp only [Function.comp_apply, hg, hm]
  have hB : ((occs.enum.filter (fun x => !p x)).map (fun x => (x.1, x.2.2))).map
      (fun ih => (ih.1, ResolverSpec.mk ih.2 .Authoritative))
      = (occs.enum.filter (fun x => !p x)).map g := by
    rw [List.map_map]
    apply List.map_congr_left
    intro x hx
    have hm : x.2.1 = ResolverMode.Authoritative := by
      have := (List.mem_filter.mp hx).2
      rcases x with ⟨i, m, hp'⟩
      cases m
      · rw [hp] at this; simp at this
      · rfl
    simp only [Function.comp_apply, hg, hm]
  have hperm : List.Perm ((occs.enum.filter p).map g
        ++ (occs.enum.filter (fun x => !p x)).map g)
      (occs.enum.map g) := by
    rw [← List.map_append]
    exact (List.filter_append_perm p occs.enum).map g
  unfold build_resolvers matchesOf
  rw [hq, hA, hB]
  have hlen : ((occs.enum.filter p).map g
      ++ (occs.enum.filter (fun x => !p x)).map g).length
      = occs.length := by
    rw [hperm.length_eq, List.length_map, List.enum_length]
  rw [if_neg (by
    intro hempty
    rw [List.isEmpty_iff] at hempty
    rw [hempty] at hlen
    exact hne (List.length_eq_zero.mp hlen.symm))]
  -- the sorted permutation is unique: both lists are key-sorted with
  -- duplicate-free keys
  haveI : IsTotal (Nat × ResolverSpec) (fun a b => a.1 ≤ b.1) :=
    ⟨fun a b => Nat.le_total a.1 b.1⟩
  haveI : IsTrans (Nat × ResolverSpec) (fun a b => a.1 ≤ b.1) :=
    ⟨fun a b c hab hbc => Nat.le_trans hab hbc⟩
  haveI : IsAntisymm (Nat × ResolverSpec) (fun a b => a.1 < b.1) :=
    ⟨fun a b h1 h2 => absurd h2 (Nat.lt_asymm h1)⟩
  have hsortperm := List.perm_insertionSort (fun a b : Nat × ResolverSpec =>
    a.1 ≤ b.1) ((occs.enum.filter p).map g
      ++ (occs.enum.filter (fun x => !p x)).map g)
  have hchain := hsortperm.trans hperm
  have htargetlt : List.Pairwise (fun a b : Nat × ResolverSpec => a.1 < b.1)
      (occs.enum.map g) := by
    rw [List.pairwise_map]
    have hfst : List.Pairwise (fun a b : Nat × ResolverMode × HostPort =>
        a.1 < b.1) occs.enum := by
      have h1 : List.Pairwise (· < ·) (occs.enum.map Prod.fst) := by
        rw [List.enum_map_fst]
        exact List.pairwise_lt_range occs.length
      rwa [List.pairwise_map] at h1
    exact hfst.imp (fun h => h)
  have hsortedle := List.sorted_insertionSort (fun a b : Nat × ResolverSpec =>
    a.1 ≤ b.1) ((occs.enum.filter p).map g
      ++ (occs.enum.filter (fun x => !p x)).map g)
  have hnodupkeys : List.Pairwise (fun a b : Nat × ResolverSpec => a.1 ≠ b.1)
      (List.insertionSort (fun a b : Nat × ResolverSpec => a.1 ≤ b.1)
        ((occs.enum.filter p).map g
          ++ (occs.enum.filter (fun x => !p x)).map g)) := by
    have hn : ((List.insertionSort (fun a b : Nat × ResolverSpec =>
        a.1 ≤ b.1) ((occs.enum.filter p).map g
          ++ (occs.enum.filter (fun x => !p x)).map g)).map Prod.fst).Nodup := by
      have hp2 : List.Perm ((List.insertionSort
          (fun a b : Nat × ResolverSpec => a.1 ≤ b.1)
          ((occs.enum.filter p).map g
            ++ (occs.enum.filter (fun x => !p x)).map g)).map Prod.fst)
          ((occs.enum.map g).map Prod.fst) := hchain.map Prod.fst
      rw [hp2.nodup_iff, List.map_map]
      have : (Prod.fst ∘ g) = (Prod.fst :
          Nat × ResolverMode × HostPort → Nat) := by
        funext x; rfl
      rw [this, List.enum_map_fst]
      exact List.nodup_range occs.length
    have hn2 : List.Pairwise (fun a b => a ≠ b)
        ((List.insertionSort (fun a b : Nat × ResolverSpec =>
          a.1 ≤ b.1) ((occs.enum.filter p).map g
            ++ (occs.enum.filter (fun x => !p x)).map g)).map Prod.fst) := hn
    rw [List.pairwise_map] at hn2
    exact hn2
  have hsortedlt := (hsortedle.and hnodupkeys).imp
    (fun h => lt_of_le_of_ne h.1 h.2)
  have heq := List.eq_of_perm_of_sorted hchain hsortedlt htargetlt
  rw [heq, List.map_map]
  have hcomp : (Prod.snd ∘ g)
      = (fun mh : ResolverMode × HostPort => ResolverSpec.mk mh.2 mh.1)
        ∘ Prod.snd := by
    funext x; rfl
  rw [hcomp, ← List.map_map, List.enum_map_snd]


/-- C8: a mixed `--resolver`/`--authoritative` command line yields the
resolver specs in textual order with modes and host/port preserved; in
particular `--resolver 1.1.1.1 --authoritative 2.2.2.2 --resolver
3.3.3.3:5353` (values parsed with default port 53) produces
`[(1.1.1.1:53, Recursive), (2.2.2.2:53, Authoritative),
(3.3.3.3:5353, Recursive)]`. -/
theorem C8_ordered_resolvers :
    (∀ occs : List (ResolverMode × HostPort), occs ≠ [] →
      build_resolvers (matchesOf occs).1 (matchesOf occs).2
        = .ok (occs.map (fun mh => ResolverSpec.mk mh.2 mh.1))) ∧
    parse_host_port "1.1.1.1" 53 .Resolver = .ok ⟨"1.1.1.1", 53, .V4⟩ ∧
    parse_host_port "2.2.2.2" 53 .Resolver = .ok ⟨"2.2.2.2", 53, .V4⟩ ∧
    parse_host_port "3.3.3.3:5353" 53 .Resolver
      = .ok ⟨"3.3.3.3", 5353, .V4⟩ ∧
    build_resolvers
      (matchesOf [(.Recursive, ⟨"1.1.1.1", 53, .V4⟩),
        (.Authoritative, ⟨"2.2.2.2", 53, .V4⟩),
        (.Recursive, ⟨"3.3.3.3", 5353, .V4⟩)]).1
      (matchesOf [(.Recursive, ⟨"1.1.1.1", 53, .V4⟩),
        (.Authoritative, ⟨"2.2.2.2", 53, .V4⟩),
        (.Recursive, ⟨"3.3.3.3", 5353, .V4⟩)]).2
      = .ok [⟨⟨"1.1.1.1", 53, .V4⟩, .Recursive⟩,
             ⟨⟨"2.2.2.2", 53, .V4⟩, .Authoritative⟩,
             ⟨⟨"3.3.3.3", 5353, .V4⟩, .Recursive⟩] :=
  ⟨build_resolvers_ordered, rfl, rfl, rfl, rfl⟩

/-- Witness for C8: a one-entry occurrence list. -/
theorem C8_witness :
    build_resolvers
      (matchesOf [(.Authoritative, ⟨"9.9.9.9", 53, .V4⟩)]).1
      (matchesOf [(.Authoritative, ⟨"9.9.9.9", 53, .V4⟩)]).2
      = .ok [⟨⟨"9.9.9.9", 53, .V4⟩, .Authoritative⟩] :=
  C8_ordered_resolvers.1 [(.Authoritative, ⟨"9.9.9.9", 53, .V4⟩)]
    (by simp)



/-! ## The server's per-slot response selection (server.rs) -/

/-- `Rcode` from the `slipstream-dns` crate.  Modelled from the spec (the
DNS codec sources are not under `src/`; §4.1 and §7 name `NOERROR`
(`Rcode::Ok` in the server code), `FORMERR`, `REFUSED`, `NXDOMAIN`). -/
inductive Rcode where
  | Ok
  | FormErr
  | NxDomain
  | Refused
  deriving Repr, DecidableEq

/-- `Question` from the `slipstream-dns` crate, treated opaquely: the
server response path only echoes it (modelled from the spec, §4.1). -/
structure Question where
  raw : Bytes
  deriving Repr, DecidableEq

/-- `Slot` from `slipstream-server/src/server.rs`: a decoded DNS query
awaiting its response.  The `cnx: *mut picoquic_cnx_t` pointer is modelled
by whether it is non-null (`has_cnx`); `decode_slot` only builds slots with
`rcode = None ∧ has_cnx` (accepted tunnel query) or `rcode = Some _ ∧
¬has_cnx` (error reply with a question present). -/
structure Slot where
  peer : SocketAddr
  id : Nat
  rd : Bool
  cd : Bool
  question : Question
  rcode : Option Rcode
  has_cnx : Bool
  path_id : Int
  deriving Repr, DecidableEq

/-- `ResponseParams` from the `slipstream-dns` crate (modelled from the
spec, §4.1): `encode_response` "echoes `id`, `question`, `RD`, `CD`",
"sets `RCODE` as requested" and places the optional payload in one TXT RR,
so a sent response is represented by these parameters. -/
structure ResponseParams where
  id : Nat
  rd : Bool
  cd : Bool
  question : Question
  payload : Option Bytes
  rcode : Option Rcode
  deriving Repr, DecidableEq

/-- The per-slot response step of `run_server`'s loop (server.rs):
`quic_out` stands for the bytes `picoquic_prepare_packet_ex` wrote for this
slot's connection and path (the QUIC endpoint is external to the model); the
source consults it only when `slot.rcode.is_none() && !slot.cnx.is_null()`.
Exactly one response is built and sent to the slot's normalized peer: the
QUIC payload with the slot's rcode when bytes are ready, otherwise `NOERROR`
with empty payload for a clean slot, otherwise the slot's error rcode. -/
def respond_to_slot (slot : Slot) (quic_out : Bytes) :
    SocketAddr × ResponseParams :=
  let send_length :=
    if slot.rcode = none ∧ slot.has_cnx then quic_out.length else 0
  let pr : Option Bytes × Option Rcode :=
    if 0 < send_length then (some quic_out, slot.rcode)
    else if slot.rcode = none then (none, some Rcode.Ok)
    else (none, slot.rcode)
  (normalize_dual_stack_addr slot.peer,
   { id := slot.id, rd := slot.rd, cd := slot.cd, question := slot.question,
     payload := pr.1, rcode := pr.2 })

/-- The response phase of one `run_server` tick: one response per decoded
slot, in slot order (`for slot in slots.iter_mut()`), `oracle i` being the
QUIC bytes prepared for the `i`-th slot. -/
def server_respond_phase (slots : List Slot) (oracle : Nat → Bytes) :
    List (SocketAddr × ResponseParams) :=
  slots.enum.map (fun islot => respond_to_slot islot.2 (oracle islot.1))

/-- C2: every decoded slot gets exactly one DNS response, sent to that
slot's peer; and a slot without error rcode for which the QUIC endpoint
produced no bytes is answered with RCODE NOERROR and empty payload, echoing
the query's id, question, RD and CD. -/
theorem C2_one_response_per_slot (slots : List Slot) (oracle : Nat → Bytes) :
    (server_respond_phase slots oracle).length = slots.length ∧
    (∀ i slot, slots.get? i = some slot →
      (server_respond_phase slots oracle).get? i
        = some (respond_to_slot slot (oracle i))) ∧
    (∀ slot quic_out, slot.rcode = none → quic_out = [] →
      respond_to_slot slot quic_out
        = (normalize_dual_stack_addr slot.peer,
           { id := slot.id, rd := slot.rd, cd := slot.cd,
             question := slot.question, payload := none,
             rcode := some Rcode.Ok })) := by
  refine ⟨by simp [server_respond_phase], ?_, ?_⟩
  · intro i slot hslot
    unfold server_respond_phase
    rw [List.get?_map, List.get?_enum, hslot]
    rfl
  · intro slot quic_out hrc hq
    subst hq
    unfold respond_to_slot
    simp [hrc]

/-- Witness for C2: a clean slot with no QUIC bytes is answered NOERROR
with empty payload. -/
theorem C2_witness :
    respond_to_slot
      { peer := .v4 ⟨10, 0, 0, 2⟩ 5353, id := 77, rd := true, cd := false,
        question := ⟨[1, 2]⟩, rcode := none, has_cnx := true, path_id := 0 }
      []
      = (normalize_dual_stack_addr (.v4 ⟨10, 0, 0, 2⟩ 5353),
         { id := 77, rd := true, cd := false, question := ⟨[1, 2]⟩,
           payload := none, rcode := some Rcode.Ok }) :=
  (C2_one_response_per_slot [] (fun _ => [])).2.2
    { peer := .v4 ⟨10, 0, 0, 2⟩ 5353, id := 77, rd := true, cd := false,
      question := ⟨[1, 2]⟩, rcode := none, has_cnx := true, path_id := 0 }
    [] rfl rfl


end Slipstream
